import Mathlib

/-!
Verification of the advanced-vector repository (src/advanced-vector/vector.h).

The header contains two near-duplicate variants of the same `Vector<T>`
template; where the variants differ in element-level behaviour (Erase,
PopBack, the EmplaceBack wrapper) both variants are embedded, with the
suffixes v1 (first variant of the file) and v2 (second variant).

Shallow embedding: a `RawMemory` buffer of capacity `cap` holding slots in
states uninitialized / live is a `List (Option α)` whose length is the
capacity; a `Vector` is such a buffer together with its `size_` field.
Machine pointers `begin() + p` are represented by slot indices `p`;
`size_t` arithmetic that can wrap is taken modulo `2 ^ 64` explicitly.
Operations whose execution hits undefined behaviour (a failed assert, a
read or destroy outside the buffer, a shift loop running past its range)
return `none`.
-/

namespace AdvVector

/-- Width of size_t: the source manipulates `size_` as a 64-bit unsigned. -/
def WORD : Nat := 2 ^ 64

/-- Embedding of Vector\<T\>: `buf` models the RawMemory data_ (one entry per
slot, `some a` = live object with value `a`, `none` = uninitialized storage,
length = `data_.Capacity()`), and `size` models `size_`. -/
structure Vec (α : Type) where
  buf : List (Option α)
  size : Nat
deriving DecidableEq, Repr

/-- Reading the object stored in slot `i`: defined only if the slot is inside
the buffer and holds a live object. -/
def slotGet (l : List (Option α)) (i : Nat) : Option α := (l[i]?).join

/-- Writing values into consecutive slots starting at `start` (models a
forward sequence of placement-news or assignments, as performed by copy_n,
uninitialized_copy_n, uninitialized_move_n: each step writes the value read
from the source). A write outside the buffer is a no-op of `List.set`; the
operations below only issue in-range writes on their defined paths. -/
def writeSlots : List (Option α) → Nat → List (Option α) → List (Option α)
  | l, _, [] => l
  | l, start, v :: vs => writeSlots (l.set start v) (start + 1) vs

/-- RawMemory(capacity): freshly allocated storage, all slots uninitialized. -/
def newBuffer (cap : Nat) : List (Option α) := List.replicate cap none

/-- Class invariant of Vector\<T\> (spec section 3): `size ≤ capacity`,
slots `[0, size)` live, slots `[size, capacity)` uninitialized. -/
def Inv (v : Vec α) : Prop :=
  v.size ≤ v.buf.length ∧
  (∀ i, i < v.size → (slotGet v.buf i).isSome = true) ∧
  (∀ i, i < v.buf.length → v.size ≤ i → slotGet v.buf i = none)

instance (v : Vec Nat) : Decidable (Inv v) := by
  unfold Inv; infer_instance

/-- Vector() noexcept = default: empty, no allocation. -/
def emptyVec : Vec α := ⟨[], 0⟩

/-- Vector(size_t size): buffer of capacity `size`,
uninitialized_value_construct_n fills `size` slots with the
value-initialized element `d`. -/
def mkSized (d : α) (n : Nat) : Vec α := ⟨List.replicate n (some d), n⟩

/-- Vector(const Vector&): buffer of capacity other.size_,
uninitialized_copy_n of the `size_` live elements into it. -/
def copyCtor (v : Vec α) : Vec α :=
  ⟨writeSlots (newBuffer v.size) 0 (v.buf.take v.size), v.size⟩

/-- Vector(Vector&&): data_(std::move(other.data_)) zeroes the source
RawMemory (null buffer, capacity 0); size_ taken, other.size_ = 0.
Result: (destination, moved-from source). -/
def moveCtor (v : Vec α) : Vec α × Vec α :=
  (⟨v.buf, v.size⟩, ⟨[], 0⟩)

/-- operator=(Vector&&): guarded by the pointer-identity check, then
Swap(rhs): buffers and sizes are exchanged. Result: (this, rhs) after. -/
def moveAssign (dst src : Vec α) : Vec α × Vec α :=
  (src, dst)

/-- Swap(Vector&): data_.Swap(other.data_) and std::swap of sizes. -/
def swapVec (a b : Vec α) : Vec α × Vec α :=
  (b, a)

/-- operator=(const Vector&): if rhs.size_ > data_.Capacity(), copy-and-swap
(Vector rhs_copy(rhs); Swap(rhs_copy)); otherwise in-place reconciliation
(the v1 inline body and the v2 CopyRhs helper are identical): copy_n over
the first min(size_, rhs.size_) slots, then either uninitialized_copy_n of
the incoming tail or destroy_n of the excess tail, then size_ = rhs.size_. -/
def copyAssign (dst rhs : Vec α) : Vec α :=
  if rhs.size > dst.buf.length then
    copyCtor rhs
  else
    let cc := min dst.size rhs.size
    let b1 := writeSlots dst.buf 0 (rhs.buf.take cc)
    let b2 :=
      if dst.size < rhs.size then
        writeSlots b1 dst.size ((rhs.buf.drop dst.size).take (rhs.size - dst.size))
      else
        writeSlots b1 rhs.size (List.replicate (dst.size - rhs.size) none)
    ⟨b2, rhs.size⟩

/-- operator=(const Vector&) with a failure oracle for the copy-and-swap
branch: Vector rhs_copy(rhs) copy-constructs rhs.size_ elements; `ok k`
tells whether the k-th copy construction succeeds. If one fails, the
exception propagates before Swap runs, so *this is untouched. Element
assignments of the in-place branch are outside the modelled failure
(the claim only asserts failure behaviour for the temporary-copy branch).
Result: (call completed?, *this after). -/
def copyAssignFallible (dst rhs : Vec α) (ok : Nat → Bool) : Bool × Vec α :=
  if rhs.size > dst.buf.length then
    if (List.range rhs.size).all ok then (true, copyCtor rhs) else (false, dst)
  else (true, copyAssign dst rhs)

/-- Reserve(new_capacity): early return when new_capacity ≤ capacity;
otherwise RawMemory(new_capacity), transfer of the `size_` live elements
(uninitialized_move_n or uninitialized_copy_n: same values either way),
destroy_n of the originals, data_.Swap(new_data). The v2 variant routes
the transfer through SwapNewData with the same element steps. -/
def reserve (v : Vec α) (newCap : Nat) : Vec α :=
  if newCap ≤ v.buf.length then v
  else ⟨writeSlots (newBuffer newCap) 0 (v.buf.take v.size), v.size⟩

/-- Resize(new_size): shrink destroys `[new_size, size_)`; growth beyond
capacity builds a buffer of exactly new_size (transfer the `size_` live
elements, value-construct the tail, swap, destroy originals); growth within
capacity value-constructs the tail in place. `d` is the value-initialized
element. -/
def resize (d : α) (v : Vec α) (newSize : Nat) : Vec α :=
  if newSize < v.size then
    ⟨writeSlots v.buf newSize (List.replicate (v.size - newSize) none), newSize⟩
  else if newSize > v.buf.length then
    ⟨writeSlots
      (writeSlots (newBuffer newSize) 0 (v.buf.take v.size))
      v.size (List.replicate (newSize - v.size) (some d)), newSize⟩
  else
    ⟨writeSlots v.buf v.size (List.replicate (newSize - v.size) (some d)), newSize⟩

/-- EmplaceBack(args...) of the first variant, called with the value `x` the
argument pack constructs. Returns the new state together with the index that
the returned reference `*(data_ + (size_ - 1))` designates (size_ already
incremented on both paths). With spare capacity: placement-new at slot
size_. Otherwise: new_capacity = size_ == 0 ? 1 : size_ * 2, construct `x`
at slot size_ of the new buffer, transfer the old elements to slots
[0, size_), swap, destroy originals. -/
def emplaceBack (v : Vec α) (x : α) : Vec α × Nat :=
  if v.size < v.buf.length then
    (⟨v.buf.set v.size (some x), v.size + 1⟩, v.size + 1 - 1)
  else
    let newCap := if v.size = 0 then 1 else v.size * 2
    (⟨writeSlots ((newBuffer newCap).set v.size (some x)) 0 (v.buf.take v.size),
      v.size + 1⟩, v.size + 1 - 1)

/-- PushBack(value): delegates to EmplaceBack, discarding the reference. -/
def pushBack (v : Vec α) (x : α) : Vec α := (emplaceBack v x).1

/-- Emplace(pos, args...) with pos = begin() + p, called with the value `x`
the argument pack constructs; returns the new state and the index of the
returned iterator. The v1 inline body and the v2 body (helpers OffsetRight
and OffsetRightNewCapacity) perform the same element-level steps.
Three branches:
1. spare capacity, pos == end(): placement-new at slot size_; the returned
   iterator is pos itself, index p.
2. spare capacity, pos < end(): T temp(args); the gap is opened by writing
   the value of slot size_-1 into slot size_ (uninitialized_move_n in the
   transfer-safe branch, assignment otherwise: same value); move_backward
   shifts slots [p, size_-1) to [p+1, size_); slot p receives temp
   (move-assignment or placement-new: same value); returns pos, index p.
3. full: new_capacity = size_ == 0 ? 1 : size_ * 2; construct `x` at slot p
   of the new buffer; transfer prefix [0, p) to [0, p) and suffix
   [p, size_) to [p+1, size_+1); swap; destroy originals; the returned
   iterator data_ + (pos - new_data.GetAddress()) offsets from the old
   buffer start held by new_data after the swap, index p. -/
def emplace (v : Vec α) (p : Nat) (x : α) : Vec α × Nat :=
  if v.size < v.buf.length then
    if p = v.size then
      (⟨v.buf.set v.size (some x), v.size + 1⟩, p)
    else
      let b1 := v.buf.set v.size (slotGet v.buf (v.size - 1))
      let b2 := writeSlots b1 (p + 1) ((v.buf.drop p).take (v.size - 1 - p))
      (⟨b2.set p (some x), v.size + 1⟩, p)
  else
    let newCap := if v.size = 0 then 1 else v.size * 2
    let nb1 := (newBuffer newCap).set p (some x)
    let nb2 := writeSlots nb1 0 (v.buf.take p)
    let nb3 := writeSlots nb2 (p + 1) ((v.buf.drop p).take (v.size - p))
    (⟨nb3, v.size + 1⟩, p)

/-- Insert(pos, value): delegates to Emplace. -/
def insert (v : Vec α) (p : Nat) (x : α) : Vec α × Nat := emplace v p x

/-- EmplaceBack of the second variant: return *(Emplace(end(), args...)),
i.e. Emplace at position size_. -/
def emplaceBack_v2 (v : Vec α) (x : α) : Vec α × Nat := emplace v v.size x

/-- Erase(pos) of the first variant, pos = begin() + p. The shift loop runs
`for (i = pos; i != end() - (pos - begin() + 1); i++) *i = *(i + 1)`, so its
one-past bound is slot size_ - (p + 1). When that bound lies before pos the
loop overruns the buffer (undefined behaviour: `none`); otherwise slots
[p, size_-p-1) receive the values of slots [p+1, size_-p); then size_--,
end()->~T() destroys slot size_-1. No assert guards p < size_ in this
variant; p ≥ size_ makes the bound arithmetic wrap below begin, also
undefined. The two strategy branches assign the same values. -/
def erase_v1 (v : Vec α) (p : Nat) : Option (Vec α) :=
  if p < v.size then
    let bound := v.size - (p + 1)
    if p ≤ bound then
      let shifted := writeSlots v.buf p ((v.buf.drop (p + 1)).take (bound - p))
      some ⟨shifted.set (v.size - 1) none, v.size - 1⟩
    else none
  else none

/-- Erase(pos) of the second variant: assert(begin() ≤ pos < end()), then
uninitialized_move_n(pos + 1, pos - begin() + 1, pos) (copy_n in the
transfer-unsafe branch: same count and values): p + 1 slots are read from
[p+1, 2p+2) and written to [p, 2p+1); a read outside the buffer or from an
uninitialized slot is undefined behaviour (`none`); then size_--,
end()->~T() destroys slot size_-1. -/
def erase_v2 (v : Vec α) (p : Nat) : Option (Vec α) :=
  if p < v.size then
    let srcVals := (List.range (p + 1)).map (fun i => slotGet v.buf (p + 1 + i))
    if srcVals.all Option.isSome then
      some ⟨(writeSlots v.buf p srcVals).set (v.size - 1) none, v.size - 1⟩
    else none
  else none

/-- PopBack() of the first variant: size_-- unconditionally (size_t
wraparound on an empty vector), then destroy_at(end()) destroys slot size_;
a destroy outside the buffer (in particular after the underflow) is a failed
assert in operator+ / undefined behaviour: `none`. -/
def popBack_v1 (v : Vec α) : Option (Vec α) :=
  let newSize := (v.size + (WORD - 1)) % WORD
  if newSize < v.buf.length then some ⟨v.buf.set newSize none, newSize⟩
  else none

/-- PopBack() of the second variant: guarded by `if (size_ != 0)`, then the
same decrement and destroy_at(end()). -/
def popBack_v2 (v : Vec α) : Option (Vec α) :=
  if v.size = 0 then some v else popBack_v1 v

/-- Least event index in [start, start + n) at which the oracle fails. -/
def firstFailAux (ok : Nat → Bool) : Nat → Nat → Option Nat
  | _, 0 => none
  | start, n + 1 => if ok start then firstFailAux ok (start + 1) n else some start

/-- EmplaceBack of the first variant for a transfer-unsafe element type
(copy-based transfer), instrumented with construction/destruction counts and
a failure oracle: `ok k` tells whether the k-th element construction of this
call succeeds (event 0 = the construction of the new element from args,
events 1..size_ = the copies performed by uninitialized_copy_n on the old
elements in order). On a failure, uninitialized_copy_n destroys the copies
it itself made, the new RawMemory frees its storage without running element
destructors, and the exception propagates with *this untouched.
Result: (call completed?, *this after, constructions, destructions). -/
def emplaceBackCopyCounted (v : Vec α) (x : α) (ok : Nat → Bool) :
    Bool × Vec α × Nat × Nat :=
  if v.size < v.buf.length then
    if ok 0 then (true, ⟨v.buf.set v.size (some x), v.size + 1⟩, 1, 0)
    else (false, v, 0, 0)
  else
    if ok 0 then
      match firstFailAux ok 1 v.size with
      | some k => (false, v, k, k - 1)
      | none =>
        let newCap := if v.size = 0 then 1 else v.size * 2
        (true,
         ⟨writeSlots ((newBuffer newCap).set v.size (some x)) 0 (v.buf.take v.size),
          v.size + 1⟩, v.size + 1, v.size)
    else (false, v, 0, 0)

/-- n PushBacks into a default-constructed vector (values irrelevant to the
capacity sequence). -/
def pushN : Nat → Vec Nat
  | 0 => emptyVec
  | n + 1 => pushBack (pushN n) 0

/-! Index lemmas for the buffer primitives. -/

theorem writeSlots_length (vs : List (Option α)) (l : List (Option α)) (start : Nat) :
    (writeSlots l start vs).length = l.length := by
  induction vs generalizing l start with
  | nil => rfl
  | cons v vs ih => simp [writeSlots, ih, List.length_set]

theorem getElem?_writeSlots (vs : List (Option α)) (l : List (Option α)) (start j : Nat) :
    (writeSlots l start vs)[j]? =
      if start ≤ j ∧ j - start < vs.length ∧ j < l.length then vs[j - start]?
      else l[j]? := by
  induction vs generalizing l start with
  | nil => simp [writeSlots]
  | cons v vs ih =>
    simp only [writeSlots]
    rw [ih]
    have hs : (l.set start v).length = l.length := List.length_set l start v
    rcases Nat.lt_trichotomy j start with hlt | heq | hgt
    · rw [if_neg (by omega), if_neg (by simp only [List.length_cons]; omega),
        List.getElem?_set, if_neg (by omega)]
    · subst heq
      rw [if_neg (by omega)]
      by_cases hl : j < l.length
      · rw [if_pos ⟨Nat.le_refl j, by simp, hl⟩]
        rw [List.getElem?_set, if_pos rfl, if_pos hl]
        simp
      · rw [if_neg (by simp only [List.length_cons]; omega)]
        rw [List.set_eq_of_length_le (by omega)]
    · by_cases hc : j - start < vs.length + 1 ∧ j < l.length
      · rw [if_pos (by rw [hs]; omega), if_pos (by simp only [List.length_cons]; omega)]
        have hj : j - start = (j - (start + 1)) + 1 := by omega
        rw [hj]
        simp
      · rw [if_neg (by rw [hs]; omega), if_neg (by simp only [List.length_cons]; omega)]
        rw [List.getElem?_set, if_neg (by omega)]

theorem slotGet_writeSlots (vs : List (Option α)) (l : List (Option α)) (start j : Nat) :
    slotGet (writeSlots l start vs) j =
      if start ≤ j ∧ j - start < vs.length ∧ j < l.length then slotGet vs (j - start)
      else slotGet l j := by
  unfold slotGet
  rw [getElem?_writeSlots]
  split <;> rfl

theorem slotGet_set (l : List (Option α)) (i j : Nat) (a : Option α) :
    slotGet (l.set i a) j = if i = j ∧ i < l.length then a else slotGet l j := by
  unfold slotGet
  rw [List.getElem?_set]
  by_cases h : i = j
  · subst h
    by_cases hl : i < l.length
    · rw [if_pos rfl, if_pos hl, if_pos ⟨rfl, hl⟩]
      rfl
    · rw [if_pos rfl, if_neg hl, if_neg (fun hc => hl hc.2)]
      rw [List.getElem?_eq_none (by omega)]
  · rw [if_neg h, if_neg (fun hc => h hc.1)]

theorem slotGet_newBuffer (cap i : Nat) :
    slotGet (newBuffer cap : List (Option α)) i = none := by
  unfold slotGet newBuffer
  rw [List.getElem?_replicate]
  split <;> rfl

theorem slotGet_take (l : List (Option α)) (n i : Nat) :
    slotGet (l.take n) i = if i < n then slotGet l i else none := by
  unfold slotGet
  rw [List.getElem?_take]
  split <;> rfl

theorem slotGet_drop (l : List (Option α)) (n i : Nat) :
    slotGet (l.drop n) i = slotGet l (n + i) := by
  unfold slotGet
  rw [List.getElem?_drop]

theorem slotGet_eq_none_of_le (l : List (Option α)) (i : Nat) (h : l.length ≤ i) :
    slotGet l i = none := by
  unfold slotGet
  rw [List.getElem?_eq_none h]
  rfl

theorem newBuffer_length (cap : Nat) : (newBuffer cap : List (Option α)).length = cap :=
  List.length_replicate cap none

/-! Branch equations and basic facts for the mutation operations. -/

theorem emplace_eq_spare_end (v : Vec α) (p : Nat) (x : α)
    (hcap : v.size < v.buf.length) (hpe : p = v.size) :
    emplace v p x = (⟨v.buf.set v.size (some x), v.size + 1⟩, p) := by
  unfold emplace
  rw [if_pos hcap, if_pos hpe]

theorem emplace_eq_spare_mid (v : Vec α) (p : Nat) (x : α)
    (hcap : v.size < v.buf.length) (hpe : ¬ p = v.size) :
    emplace v p x =
      (⟨(writeSlots (v.buf.set v.size (slotGet v.buf (v.size - 1))) (p + 1)
          ((v.buf.drop p).take (v.size - 1 - p))).set p (some x), v.size + 1⟩, p) := by
  unfold emplace
  rw [if_pos hcap, if_neg hpe]

theorem emplace_eq_full (v : Vec α) (p : Nat) (x : α) (hcap : ¬ v.size < v.buf.length) :
    emplace v p x =
      (⟨writeSlots
          (writeSlots ((newBuffer (if v.size = 0 then 1 else v.size * 2)).set p (some x))
            0 (v.buf.take p))
          (p + 1) ((v.buf.drop p).take (v.size - p)), v.size + 1⟩, p) := by
  unfold emplace
  rw [if_neg hcap]

theorem emplace_ret (v : Vec α) (p : Nat) (x : α) : (emplace v p x).2 = p := by
  unfold emplace
  split
  · split <;> rfl
  · rfl

theorem emplace_size (v : Vec α) (p : Nat) (x : α) :
    (emplace v p x).1.size = v.size + 1 := by
  unfold emplace
  split
  · split <;> rfl
  · rfl

theorem emplace_cap_spare (v : Vec α) (p : Nat) (x : α) (hcap : v.size < v.buf.length) :
    (emplace v p x).1.buf.length = v.buf.length := by
  by_cases hpe : p = v.size
  · rw [emplace_eq_spare_end v p x hcap hpe]
    simp [List.length_set]
  · rw [emplace_eq_spare_mid v p x hcap hpe]
    simp [List.length_set, writeSlots_length]

theorem emplace_cap_full (v : Vec α) (p : Nat) (x : α) (hcap : ¬ v.size < v.buf.length) :
    (emplace v p x).1.buf.length = max 1 (2 * v.size) := by
  rw [emplace_eq_full v p x hcap]
  simp only [writeSlots_length, List.length_set, newBuffer_length]
  rcases Nat.eq_zero_or_pos v.size with h0 | h0
  · simp [h0]
  · rw [if_neg (by omega)]
    omega

theorem emplaceBack_eq (v : Vec α) (x : α) : emplaceBack v x = emplace v v.size x := by
  unfold emplaceBack emplace
  by_cases hcap : v.size < v.buf.length
  · rw [if_pos hcap, if_pos hcap, if_pos rfl]
    simp
  · rw [if_neg hcap, if_neg hcap]
    simp only [Nat.sub_self, List.take_zero, writeSlots, Nat.add_sub_cancel]

theorem emplaceBack_size (v : Vec α) (x : α) : (emplaceBack v x).1.size = v.size + 1 := by
  rw [emplaceBack_eq]
  exact emplace_size v v.size x

theorem emplaceBack_cap_spare (v : Vec α) (x : α) (hcap : v.size < v.buf.length) :
    (emplaceBack v x).1.buf.length = v.buf.length := by
  rw [emplaceBack_eq]
  exact emplace_cap_spare v v.size x hcap

theorem emplaceBack_cap_full (v : Vec α) (x : α) (hcap : ¬ v.size < v.buf.length) :
    (emplaceBack v x).1.buf.length = max 1 (2 * v.size) := by
  rw [emplaceBack_eq]
  exact emplace_cap_full v v.size x hcap

/-! Element-level behaviour of Emplace: the new element lands at the
insertion index, earlier slots keep their objects, later objects move up
one slot. -/

theorem emplace_slot_self (v : Vec α) (p : Nat) (x : α) (hp : p ≤ v.size) :
    slotGet (emplace v p x).1.buf p = some x := by
  by_cases hcap : v.size < v.buf.length
  · by_cases hpe : p = v.size
    · rw [emplace_eq_spare_end v p x hcap hpe]
      rw [slotGet_set, if_pos ⟨hpe.symm, hcap⟩]
    · rw [emplace_eq_spare_mid v p x hcap hpe]
      rw [slotGet_set,
        if_pos ⟨rfl, by rw [writeSlots_length, List.length_set]; omega⟩]
  · rw [emplace_eq_full v p x hcap]
    rw [slotGet_writeSlots, if_neg (by omega)]
    rw [slotGet_writeSlots, if_neg (by simp only [List.length_take]; omega)]
    rw [slotGet_set, if_pos ⟨rfl, by rw [newBuffer_length]; split <;> omega⟩]

theorem emplace_slot_lt (v : Vec α) (p : Nat) (x : α) (j : Nat)
    (hp : p ≤ v.size) (hle : v.size ≤ v.buf.length) (hj : j < p) :
    slotGet (emplace v p x).1.buf j = slotGet v.buf j := by
  by_cases hcap : v.size < v.buf.length
  · by_cases hpe : p = v.size
    · rw [emplace_eq_spare_end v p x hcap hpe]
      rw [slotGet_set, if_neg (by omega)]
    · rw [emplace_eq_spare_mid v p x hcap hpe]
      rw [slotGet_set, if_neg (by omega)]
      rw [slotGet_writeSlots, if_neg (by omega)]
      rw [slotGet_set, if_neg (by omega)]
  · rw [emplace_eq_full v p x hcap]
    rw [slotGet_writeSlots, if_neg (by omega)]
    rw [slotGet_writeSlots,
      if_pos ⟨Nat.zero_le j, by simp only [List.length_take]; omega,
        by rw [List.length_set, newBuffer_length]; split <;> omega⟩]
    rw [Nat.sub_zero, slotGet_take, if_pos hj]

theorem emplace_slot_ge (v : Vec α) (p : Nat) (x : α) (j : Nat)
    (hle : v.size ≤ v.buf.length) (hpj : p ≤ j) (hj : j < v.size) :
    slotGet (emplace v p x).1.buf (j + 1) = slotGet v.buf j := by
  have hp : p < v.size := Nat.lt_of_le_of_lt hpj hj
  have hidx : p + (j + 1 - (p + 1)) = j := by omega
  by_cases hcap : v.size < v.buf.length
  · have hpe : ¬ p = v.size := by omega
    rw [emplace_eq_spare_mid v p x hcap hpe]
    rw [slotGet_set, if_neg (by omega)]
    by_cases hj1 : j < v.size - 1
    · rw [slotGet_writeSlots,
        if_pos ⟨by omega,
          by simp only [List.length_take, List.length_drop]; omega,
          by rw [List.length_set]; omega⟩]
      rw [slotGet_take, if_pos (by omega), slotGet_drop, hidx]
    · rw [slotGet_writeSlots,
        if_neg (by simp only [List.length_take, List.length_drop]; omega)]
      rw [slotGet_set, if_pos ⟨by omega, by omega⟩]
      have hj2 : j = v.size - 1 := by omega
      rw [hj2]
  · rw [emplace_eq_full v p x hcap]
    rw [slotGet_writeSlots,
      if_pos ⟨by omega,
        by simp only [List.length_take, List.length_drop]; omega,
        by simp only [writeSlots_length, List.length_set, newBuffer_length]
           split <;> omega⟩]
    rw [slotGet_take, if_pos (by omega), slotGet_drop, hidx]

/-! Reserve, copy construction and copy assignment. -/

theorem reserve_noop (v : Vec α) (k : Nat) (h : k ≤ v.buf.length) : reserve v k = v := by
  unfold reserve
  rw [if_pos h]

theorem reserve_grow_cap (v : Vec α) (k : Nat) (h : ¬ k ≤ v.buf.length) :
    (reserve v k).buf.length = k := by
  unfold reserve
  rw [if_neg h]
  simp [writeSlots_length, newBuffer_length]

theorem reserve_grow_size (v : Vec α) (k : Nat) (h : ¬ k ≤ v.buf.length) :
    (reserve v k).size = v.size := by
  unfold reserve
  rw [if_neg h]

theorem reserve_grow_slot (v : Vec α) (k i : Nat) (h : ¬ k ≤ v.buf.length)
    (hle : v.size ≤ v.buf.length) (hi : i < v.size) :
    slotGet (reserve v k).buf i = slotGet v.buf i := by
  unfold reserve
  rw [if_neg h]
  simp only
  rw [slotGet_writeSlots,
    if_pos ⟨Nat.zero_le i, by simp only [List.length_take]; omega,
      by rw [newBuffer_length]; omega⟩]
  rw [Nat.sub_zero, slotGet_take, if_pos hi]

theorem copyCtor_size (v : Vec α) : (copyCtor v).size = v.size := rfl

theorem copyCtor_cap (v : Vec α) : (copyCtor v).buf.length = v.size := by
  unfold copyCtor
  simp [writeSlots_length, newBuffer_length]

theorem copyCtor_slot (v : Vec α) (i : Nat) (hle : v.size ≤ v.buf.length)
    (hi : i < v.size) : slotGet (copyCtor v).buf i = slotGet v.buf i := by
  unfold copyCtor
  simp only
  rw [slotGet_writeSlots,
    if_pos ⟨Nat.zero_le i, by simp only [List.length_take]; omega,
      by rw [newBuffer_length]; omega⟩]
  rw [Nat.sub_zero, slotGet_take, if_pos hi]

theorem copyAssign_big (dst rhs : Vec α) (h : rhs.size > dst.buf.length) :
    copyAssign dst rhs = copyCtor rhs := by
  unfold copyAssign
  rw [if_pos h]

theorem copyAssign_size (dst rhs : Vec α) : (copyAssign dst rhs).size = rhs.size := by
  unfold copyAssign
  split
  · exact copyCtor_size rhs
  · rfl

theorem copyAssign_slot (dst rhs : Vec α) (i : Nat)
    (hD : rhs.size ≤ dst.buf.length) (hR : rhs.size ≤ rhs.buf.length)
    (hi : i < rhs.size) :
    slotGet (copyAssign dst rhs).buf i = slotGet rhs.buf i := by
  unfold copyAssign
  rw [if_neg (by omega)]
  simp only
  by_cases hsz : dst.size < rhs.size
  · rw [if_pos hsz]
    by_cases hcc : i < dst.size
    · rw [slotGet_writeSlots, if_neg (by omega)]
      rw [slotGet_writeSlots,
        if_pos ⟨Nat.zero_le i, by simp only [List.length_take]; omega, by omega⟩]
      rw [Nat.sub_zero, slotGet_take, if_pos (by omega)]
    · rw [slotGet_writeSlots,
        if_pos ⟨by omega,
          by simp only [List.length_take, List.length_drop, writeSlots_length]; omega,
          by simp only [writeSlots_length]; omega⟩]
      rw [slotGet_take, if_pos (by omega), slotGet_drop]
      rw [show dst.size + (i - dst.size) = i by omega]
  · rw [if_neg hsz]
    rw [slotGet_writeSlots, if_neg (by simp only [List.length_replicate]; omega)]
    rw [slotGet_writeSlots,
      if_pos ⟨Nat.zero_le i, by simp only [List.length_take]; omega, by omega⟩]
    rw [Nat.sub_zero, slotGet_take, if_pos (by omega)]

theorem copyAssignFallible_fail (dst rhs : Vec α) (ok : Nat → Bool)
    (h1 : rhs.size > dst.buf.length) (h2 : (List.range rhs.size).all ok = false) :
    copyAssignFallible dst rhs ok = (false, dst) := by
  unfold copyAssignFallible
  rw [if_pos h1, h2]
  rfl

/-! Capacity growth under repeated PushBack. -/

theorem pushN_size (n : Nat) : (pushN n).size = n := by
  induction n with
  | zero => rfl
  | succ n ih =>
    show (emplaceBack (pushN n) 0).1.size = n + 1
    rw [emplaceBack_size, ih]

theorem pushN_cap (n : Nat) (h : 1 ≤ n) :
    ∃ k, (pushN n).buf.length = 2 ^ k ∧ n ≤ 2 ^ k ∧ 2 ^ k < 2 * n := by
  induction n with
  | zero => omega
  | succ n ih =>
    rcases Nat.eq_zero_or_pos n with h0 | h0
    · subst h0
      exact ⟨0, rfl, by omega, by omega⟩
    · obtain ⟨k, hcap, hlo, hhi⟩ := ih h0
      have hsz : (pushN n).size = n := pushN_size n
      by_cases hfull : (pushN n).size < (pushN n).buf.length
      · refine ⟨k, ?_, by omega, by omega⟩
        show (emplaceBack (pushN n) 0).1.buf.length = 2 ^ k
        rw [emplaceBack_cap_spare _ _ hfull, hcap]
      · have hn : n = 2 ^ k := by omega
        refine ⟨k + 1, ?_, by rw [Nat.pow_succ]; omega, by rw [Nat.pow_succ]; omega⟩
        show (emplaceBack (pushN n) 0).1.buf.length = 2 ^ (k + 1)
        rw [emplaceBack_cap_full _ _ hfull, hsz, Nat.pow_succ]
        omega

/-! The claims. -/

/-- Claim C1, evaluated at a failing input (code bug). A full one-element
vector with copy-based transfer: EmplaceBack reallocates, the new element
is constructed (event 0 succeeds), the copy of the old element fails
(event 1). The vector keeps its pre-call size, values and capacity, but the
call constructed one element and destroyed none: the element built in the
abandoned buffer before the transfer is never destroyed, so construction
count does not equal destruction count, contradicting the claim. -/
theorem claim_C1_realloc_leak :
    emplaceBackCopyCounted (Vec.mk [some 7] 1 : Vec Nat) 9 (fun k => k == 0) =
      (false, Vec.mk [some 7] 1, 1, 0) ∧ (1 : Nat) ≠ 0 :=
  ⟨by decide, by decide⟩

/-- Claim C2, evaluated at a failing input (code bug). Erasing position 1 of
a five-element vector: both Erase variants shift too few slots, so the
result is [1, 3, 4, 4] while the claim requires [1, 3, 4, 5] — the element
left at position 3 is not the old element of position 4. -/
theorem claim_C2_erase_shift :
    erase_v1 (Vec.mk [some 1, some 2, some 3, some 4, some 5] 5 : Vec Nat) 1 =
      some (Vec.mk [some 1, some 3, some 4, some 4, none] 4) ∧
    erase_v2 (Vec.mk [some 1, some 2, some 3, some 4, some 5] 5 : Vec Nat) 1 =
      some (Vec.mk [some 1, some 3, some 4, some 4, none] 4) ∧
    ¬ (slotGet (Vec.mk [some 1, some 3, some 4, some 4, none] 4 : Vec Nat).buf 3 =
        slotGet (Vec.mk [some 1, some 2, some 3, some 4, some 5] 5 : Vec Nat).buf 4) :=
  ⟨by decide, by decide, by decide⟩

/-- Claim C3, evaluated at the failing input (code bug). On an empty vector
the first variant of PopBack decrements size_ unconditionally (size_t
underflow to 2^64 - 1) and then destroys at data_ + size_, outside the
buffer: no defined no-op state exists. The second, guarded variant is a
no-op as the claim states, and on a non-empty vector both variants destroy
exactly the last element and decrement the size. -/
theorem claim_C3_popBack :
    popBack_v1 (Vec.mk [] 0 : Vec Nat) = none ∧
    popBack_v2 (Vec.mk [] 0 : Vec Nat) = some (Vec.mk [] 0) ∧
    popBack_v1 (Vec.mk [some 5] 1 : Vec Nat) = some (Vec.mk [none] 0) ∧
    popBack_v2 (Vec.mk [some 5] 1 : Vec Nat) = some (Vec.mk [none] 0) :=
  ⟨by decide, by decide, by decide, by decide⟩

/-- Claim C4, evaluated at failing inputs (code bug). Two public mutations
started from states satisfying the size/liveness invariant reach no defined
post-state at all: Erase of the last element of a two-element vector (the
variant-1 shift loop runs past its bound; the variant-2 transfer reads
slots beyond the buffer) and variant-1 PopBack on an empty vector with
capacity 1 (size_t underflow). By contrast an in-range Emplace preserves
the invariant. -/
theorem claim_C4_invariant :
    (Inv (Vec.mk [some 1, some 2] 2 : Vec Nat) ∧
      erase_v1 (Vec.mk [some 1, some 2] 2 : Vec Nat) 1 = none ∧
      erase_v2 (Vec.mk [some 1, some 2] 2 : Vec Nat) 1 = none) ∧
    (Inv (Vec.mk [none] 0 : Vec Nat) ∧
      popBack_v1 (Vec.mk [none] 0 : Vec Nat) = none) ∧
    Inv ((emplace (Vec.mk [some 1, some 2] 2 : Vec Nat) 1 9).1) :=
  ⟨⟨by decide, by decide, by decide⟩, ⟨by decide, by decide⟩, by decide⟩

/-- Claim C5 (confirmed): Insert(begin + i, v), equivalently Emplace at
index i with 0 ≤ i ≤ n, increases the size to n + 1, leaves slots before i
unchanged, places the new value at slot i, and moves the old objects of
slots i..n-1 to slots i+1..n. The statement quantifies over every vector
satisfying size ≤ capacity, so it covers the spare-capacity branches
(append and in-place shift) and the reallocating branch alike. -/
theorem claim_C5_insert (α : Type) (v : Vec α) (p : Nat) (x : α)
    (hp : p ≤ v.size) (hle : v.size ≤ v.buf.length) :
    insert v p x = emplace v p x ∧
    (emplace v p x).1.size = v.size + 1 ∧
    slotGet (emplace v p x).1.buf p = some x ∧
    (∀ j, j < p → slotGet (emplace v p x).1.buf j = slotGet v.buf j) ∧
    (∀ j, p ≤ j → j < v.size →
      slotGet (emplace v p x).1.buf (j + 1) = slotGet v.buf j) :=
  ⟨rfl, emplace_size v p x, emplace_slot_self v p x hp,
   fun j hj => emplace_slot_lt v p x j hp hle hj,
   fun j hpj hj => emplace_slot_ge v p x j hle hpj hj⟩

/-- Witness for claim C5 at a concrete input: inserting 99 at position 1 of
the two-element vector [10, 20] (capacity 4, in-place branch). -/
theorem claim_C5_witness :
    (emplace (Vec.mk [some 10, some 20, none, none] 2 : Vec Nat) 1 99).1.size = 3 ∧
    slotGet (emplace (Vec.mk [some 10, some 20, none, none] 2 : Vec Nat) 1 99).1.buf 1 =
      some 99 ∧
    slotGet (emplace (Vec.mk [some 10, some 20, none, none] 2 : Vec Nat) 1 99).1.buf 0 =
      slotGet (Vec.mk [some 10, some 20, none, none] 2 : Vec Nat).buf 0 ∧
    slotGet (emplace (Vec.mk [some 10, some 20, none, none] 2 : Vec Nat) 1 99).1.buf 2 =
      slotGet (Vec.mk [some 10, some 20, none, none] 2 : Vec Nat).buf 1 := by
  have h := claim_C5_insert Nat (Vec.mk [some 10, some 20, none, none] 2) 1 99
    (by decide) (by decide)
  exact ⟨h.2.1, h.2.2.1, h.2.2.2.1 0 (by decide), h.2.2.2.2 1 (by decide) (by decide)⟩

/-- Claim C6 (confirmed): whenever an incremental append or insert finds
the buffer full, the newly allocated capacity is max(1, 2 * size); with
spare capacity the capacity is untouched; and pushing n elements into an
initially empty vector leaves the capacity at the least power of two that
is at least n (the sequence 1, 2, 4, 8, ..., each step taken only when the
previous capacity is full). -/
theorem claim_C6_growth :
    (∀ (α : Type) (v : Vec α) (x : α), ¬ v.size < v.buf.length →
      (emplaceBack v x).1.buf.length = max 1 (2 * v.size)) ∧
    (∀ (α : Type) (v : Vec α) (p : Nat) (x : α), ¬ v.size < v.buf.length →
      (emplace v p x).1.buf.length = max 1 (2 * v.size)) ∧
    (∀ (α : Type) (v : Vec α) (x : α), v.size < v.buf.length →
      (emplaceBack v x).1.buf.length = v.buf.length) ∧
    (∀ n, 1 ≤ n → (pushN n).size = n ∧
      ∃ k, (pushN n).buf.length = 2 ^ k ∧ n ≤ 2 ^ k ∧ 2 ^ k < 2 * n) :=
  ⟨fun _ v x h => emplaceBack_cap_full v x h,
   fun _ v p x h => emplace_cap_full v p x h,
   fun _ v x h => emplaceBack_cap_spare v x h,
   fun n h => ⟨pushN_size n, pushN_cap n h⟩⟩

/-- Witness for claim C6 at concrete inputs: a full one-element vector
doubles to capacity 2 on append and on insert; an append with spare
capacity keeps capacity 2; five pushes from empty give size 5. -/
theorem claim_C6_witness :
    (emplaceBack (Vec.mk [some 3] 1 : Vec Nat) 4).1.buf.length =
      max 1 (2 * 1) ∧
    (emplace (Vec.mk [some 3] 1 : Vec Nat) 0 4).1.buf.length =
      max 1 (2 * 1) ∧
    (emplaceBack (Vec.mk [some 3, none] 1 : Vec Nat) 4).1.buf.length = 2 ∧
    (pushN 5).size = 5 :=
  ⟨claim_C6_growth.1 Nat (Vec.mk [some 3] 1) 4 (by decide),
   claim_C6_growth.2.1 Nat (Vec.mk [some 3] 1) 0 4 (by decide),
   claim_C6_growth.2.2.1 Nat (Vec.mk [some 3, none] 1) 4 (by decide),
   (claim_C6_growth.2.2.2 5 (by decide)).1⟩

/-- Claim C7 (confirmed): Reserve(k) with k ≤ capacity changes nothing at
all; Reserve(k) with k > capacity yields capacity exactly k (not doubled)
and preserves the size and every element in order. -/
theorem claim_C7_reserve (α : Type) (v : Vec α) (k : Nat) :
    (k ≤ v.buf.length → reserve v k = v) ∧
    (¬ k ≤ v.buf.length → v.size ≤ v.buf.length →
      (reserve v k).buf.length = k ∧ (reserve v k).size = v.size ∧
      ∀ i, i < v.size → slotGet (reserve v k).buf i = slotGet v.buf i) :=
  ⟨fun h => reserve_noop v k h,
   fun h hle => ⟨reserve_grow_cap v k h, reserve_grow_size v k h,
     fun i hi => reserve_grow_slot v k i h hle hi⟩⟩

/-- Witness for claim C7 at a concrete input: Reserve(2) on a vector of
capacity 3 is the identity; Reserve(5) gives capacity exactly 5 and keeps
size and elements. -/
theorem claim_C7_witness :
    reserve (Vec.mk [some 1, some 2, none] 2 : Vec Nat) 2 =
      Vec.mk [some 1, some 2, none] 2 ∧
    (reserve (Vec.mk [some 1, some 2, none] 2 : Vec Nat) 5).buf.length = 5 ∧
    (reserve (Vec.mk [some 1, some 2, none] 2 : Vec Nat) 5).size = 2 ∧
    slotGet (reserve (Vec.mk [some 1, some 2, none] 2 : Vec Nat) 5).buf 1 =
      slotGet (Vec.mk [some 1, some 2, none] 2 : Vec Nat).buf 1 := by
  have h := (claim_C7_reserve Nat (Vec.mk [some 1, some 2, none] 2) 5).2
    (by decide) (by decide)
  exact ⟨(claim_C7_reserve Nat (Vec.mk [some 1, some 2, none] 2) 2).1 (by decide),
    h.1, h.2.1, h.2.2 1 (by decide)⟩

/-- Claim C8 (confirmed): after copy assignment the destination has the
source's size and element-wise equal elements; when the incoming size
exceeds the destination's capacity the operator is exactly the
copy-and-swap of a full temporary (so a failing copy leaves the
destination unmodified, third and fourth conjuncts); otherwise the in-place
reconciliation produces the same element-wise result. -/
theorem claim_C8_copyAssign (α : Type) (dst rhs : Vec α)
    (_hd : Inv dst) (hr : Inv rhs) :
    (copyAssign dst rhs).size = rhs.size ∧
    (∀ i, i < rhs.size → slotGet (copyAssign dst rhs).buf i = slotGet rhs.buf i) ∧
    (rhs.size > dst.buf.length → copyAssign dst rhs = copyCtor rhs) ∧
    (∀ ok : Nat → Bool, rhs.size > dst.buf.length →
      (List.range rhs.size).all ok = false →
      copyAssignFallible dst rhs ok = (false, dst)) := by
  refine ⟨copyAssign_size dst rhs, ?_, copyAssign_big dst rhs,
    fun ok h1 h2 => copyAssignFallible_fail dst rhs ok h1 h2⟩
  intro i hi
  by_cases hbig : rhs.size > dst.buf.length
  · rw [copyAssign_big dst rhs hbig]
    exact copyCtor_slot rhs i hr.1 hi
  · exact copyAssign_slot dst rhs i (by omega) hr.1 hi

/-- Witness for claim C8 at concrete inputs: in-place assignment of [7, 8]
over a one-element vector of capacity 3, and the failing copy-and-swap
branch on an empty destination leaving it unmodified. -/
theorem claim_C8_witness :
    (copyAssign (Vec.mk [some 1, none, none] 1 : Vec Nat)
      (Vec.mk [some 7, some 8] 2)).size = 2 ∧
    slotGet (copyAssign (Vec.mk [some 1, none, none] 1 : Vec Nat)
      (Vec.mk [some 7, some 8] 2)).buf 0 =
      slotGet (Vec.mk [some 7, some 8] 2 : Vec Nat).buf 0 ∧
    copyAssignFallible (Vec.mk [] 0 : Vec Nat) (Vec.mk [some 7, some 8] 2)
      (fun _ => false) = (false, Vec.mk [] 0) := by
  have h1 := claim_C8_copyAssign Nat (Vec.mk [some 1, none, none] 1)
    (Vec.mk [some 7, some 8] 2) (by decide) (by decide)
  have h2 := claim_C8_copyAssign Nat (Vec.mk [] 0)
    (Vec.mk [some 7, some 8] 2) (by decide) (by decide)
  exact ⟨h1.1, h1.2.1 0 (by decide),
    h2.2.2.2 (fun _ => false) (by decide) (by decide)⟩

/-- Claim C9 counterexample: move assignment does not leave the moved-from
source with size 0 — operator=(Vector&&) swaps buffers and sizes, so a
source moved into a one-element destination ends with size 1. -/
theorem claim_C9_cex :
    ¬ ((moveAssign (Vec.mk [some 1] 1 : Vec Nat)
        (Vec.mk [some 2, some 3] 2)).2.size = 0) := by
  decide

/-- Claim C9 (amended): move construction leaves the moved-from source
empty (size 0, no buffer) with the destination holding exactly the prior
elements; move assignment exchanges the two vectors, so the destination
holds the source's prior elements but the source receives the
destination's former contents (empty only if the destination was empty);
both are pure ownership transfers (no element is constructed or destroyed)
and never fail. -/
theorem claim_C9_move (α : Type) (v d s : Vec α) :
    (moveCtor v).1.buf = v.buf ∧ (moveCtor v).1.size = v.size ∧
    (moveCtor v).2.size = 0 ∧ (moveCtor v).2.buf = [] ∧
    (moveAssign d s).1 = s ∧ (moveAssign d s).2 = d ∧
    (swapVec d s).1 = s ∧ (swapVec d s).2 = d :=
  ⟨rfl, rfl, rfl, rfl, rfl, rfl, rfl, rfl⟩

/-- Claim C10 (confirmed): EmplaceBack (variant 1, and variant 2 via
Emplace(end), hence PushBack) returns a reference to the element at index
size - 1 after the call, which holds the new value; Emplace and Insert
return the position begin() + insertion index, referencing the new
element — in the append, in-place-shift and reallocation branches alike,
since the statement covers every vector and every valid index. -/
theorem claim_C10_returns (α : Type) (v : Vec α) (p : Nat) (x : α)
    (hp : p ≤ v.size) :
    (emplace v p x).2 = p ∧
    insert v p x = emplace v p x ∧
    slotGet (emplace v p x).1.buf ((emplace v p x).2) = some x ∧
    (emplaceBack v x).2 = (emplaceBack v x).1.size - 1 ∧
    slotGet (emplaceBack v x).1.buf ((emplaceBack v x).2) = some x ∧
    emplaceBack_v2 v x = emplace v v.size x ∧
    pushBack v x = (emplaceBack v x).1 := by
  refine ⟨emplace_ret v p x, rfl, ?_, ?_, ?_, rfl, rfl⟩
  · rw [emplace_ret]
    exact emplace_slot_self v p x hp
  · rw [emplaceBack_eq, emplace_ret, emplace_size]
    omega
  · rw [emplaceBack_eq, emplace_ret]
    exact emplace_slot_self v v.size x (Nat.le_refl v.size)

/-- Witness for claim C10 at a concrete input: emplacing 42 at position 0
of a full one-element vector (reallocation branch). -/
theorem claim_C10_witness :
    (emplace (Vec.mk [some 6] 1 : Vec Nat) 0 42).2 = 0 ∧
    slotGet (emplace (Vec.mk [some 6] 1 : Vec Nat) 0 42).1.buf
      ((emplace (Vec.mk [some 6] 1 : Vec Nat) 0 42).2) = some 42 ∧
    (emplaceBack (Vec.mk [some 6] 1 : Vec Nat) 42).2 =
      (emplaceBack (Vec.mk [some 6] 1 : Vec Nat) 42).1.size - 1 := by
  have h := claim_C10_returns Nat (Vec.mk [some 6] 1) 0 42 (by decide)
  exact ⟨h.1, h.2.2.1, h.2.2.2.1⟩

end AdvVector
